import Mathlib

/-!
Verification of the Medical Data Anonymizer batch pipeline
(`Medical_Data_Anonymizer_Module.py`) against its specification.

Text and file names are modelled as `List Char`.  Python string
operations used by the source (`split`, `join`, `replace`, `endswith`,
`startswith`, `os.path.splitext`, `os.path.basename`, `os.path.join`)
are given executable models below.  External collaborators (file
reads, the Presidio analyzer/anonymizer, file writes) are modelled as
an `Env` of fallible functions (`Except`), mirroring Python
exceptions.
-/

namespace MedAnon

/-- Texts and file names: Python strings as lists of characters. -/
abbrev Str := List Char

/-- Convenience conversion from Lean string literals. -/
def str (s : String) : Str := s.data

/-- Python whitespace characters used by `str.split()` / `str.strip()`
(ASCII subset; the source only handles such data). -/
def isWs (c : Char) : Bool :=
  c == ' ' || c == '\t' || c == '\n' || c == '\r' || c == '\x0b' || c == '\x0c'

/-- Python `sep.join(xs)`. -/
def pyJoin (sep : Str) : List Str → Str
  | [] => []
  | [x] => x
  | x :: y :: xs => x ++ sep ++ pyJoin sep (y :: xs)

/-- Python `s.split("\n")`: split on every newline, keeping empty pieces
(`"".split("\n") == [""]`). -/
def splitNl : Str → List Str
  | [] => [[]]
  | c :: cs =>
    if c = '\n' then [] :: splitNl cs
    else
      match splitNl cs with
      | [] => [[c]]
      | l :: ls => (c :: l) :: ls

/-- Worker for Python `s.split()` (no argument): split on runs of
whitespace, dropping empty pieces.  `acc` is the current token, reversed. -/
def pySplitWsAux : Str → Str → List Str
  | [], acc => if acc = [] then [] else [acc.reverse]
  | c :: cs, acc =>
    if isWs c then
      (if acc = [] then pySplitWsAux cs [] else acc.reverse :: pySplitWsAux cs [])
    else pySplitWsAux cs (c :: acc)

/-- Python `s.split()` (whitespace split, empty tokens dropped). -/
def pySplitWs (s : Str) : List Str := pySplitWsAux s []

/-- Fuel-driven worker for Python `s.replace(old, new)` (replaces every
non-overlapping occurrence, scanning left to right).  The fuel starts at
`s.length`, which is enough because each step consumes at least one
character (the source never calls `replace` with an empty `old`). -/
def replAllF (old new : Str) : Nat → Str → Str
  | _, [] => []
  | 0, s => s
  | fuel + 1, c :: cs =>
    if old.isPrefixOf (c :: cs) then new ++ replAllF old new fuel ((c :: cs).drop old.length)
    else c :: replAllF old new fuel cs

/-- Python `s.replace(old, new)` for nonempty `old`. -/
def replAll (s old new : Str) : Str := replAllF old new s.length s

/-- Python `old in s` (substring occurrence test). -/
def occursIn (old : Str) : Str → Bool
  | [] => old.isEmpty
  | c :: cs => old.isPrefixOf (c :: cs) || occursIn old cs

/-- Python `os.path.basename` (the part after the last `/`). -/
def basename (p : Str) : Str := (p.reverse.takeWhile (fun c => !(c == '/'))).reverse

/-- Python `os.path.join(root, f)` for a root with no trailing separator
and a relative `f`, as produced by `os.walk`. -/
def pathJoin (root f : Str) : Str := root ++ '/' :: f

/-- The extension part of Python `os.path.splitext(file)` for a plain
file name (no directory part): everything from the last dot on, except
that a dot with only dots before it starts no extension
(`splitext(".txt") == (".txt", "")`). -/
def extOf (file : Str) : Str :=
  let rev := file.reverse
  let pre := rev.takeWhile (fun c => !(c == '.'))
  if pre.length = rev.length then []
  else if (rev.drop (pre.length + 1)).any (fun c => !(c == '.')) then '.' :: pre.reverse
  else []

/-- `os.path.splitext(file)[1].lower()` as in the source's dispatch. -/
def extLower (file : Str) : Str := (extOf file).map Char.toLower

/-- The discovery filter (source lines 254-255):
`file.endswith((".docx", ".txt", ".pdf", ".csv", ".xml", ".odt")) and not
file.startswith("~$")`.  `endswith` is case-sensitive. -/
def supportedSuffixes : List Str :=
  [str ".docx", str ".txt", str ".pdf", str ".csv", str ".xml", str ".odt"]

def isSupportedFile (file : Str) : Bool :=
  supportedSuffixes.any (fun s => s.isSuffixOf file) && !((str "~$").isPrefixOf file)

/-- One directory of the `os.walk` loop: append `os.path.join(root, file)`
for every matching file, in listing order. -/
def discoverDir (root : Str) : List Str → List Str
  | [] => []
  | f :: fs =>
    if isSupportedFile f then pathJoin root f :: discoverDir root fs
    else discoverDir root fs

/-- The discovery step (source lines 252-256): walk entries in order,
collecting supported files. -/
def discoverFiles : List (Str × List Str) → List Str
  | [] => []
  | (root, fs) :: rest => discoverDir root fs ++ discoverFiles rest

/-! ## Data model -/

deriving instance DecidableEq for Except

/-- A detected span, as returned by the analyzer collaborator. -/
structure Span where
  start : Nat
  stop : Nat
  entityType : Str
  score : ℚ
deriving DecidableEq

/-- The anonymization method chosen in the combo box (closed set). -/
inductive Method where
  | replace
  | redact
  | hash
  | mask
deriving DecidableEq

/-- A Presidio `OperatorConfig`, as constructed by the source. -/
inductive OperatorConfig where
  | redact
  | hash
  | mask (maskingChar : Char) (charsToMask : Nat) (fromEnd : Bool)
deriving DecidableEq

/-- The run configuration taken from the GUI. -/
structure AnonymizationConfig where
  entities : List Str
  method : Method
  threshold : ℚ

/-- One row of `file_mappings.csv` (source lines 397-411). -/
structure MappingRecord where
  orig : Str
  anon : Str
  uuid : Str
deriving DecidableEq

/-- The error row appended by the per-file `except` clause
(source lines 405-411). -/
def errorRec (file e : Str) : MappingRecord :=
  ⟨file, str "ERROR", str "Error: " ++ e⟩

/-- A document handed to the write collaborator (source lines 353-395):
a docx is one paragraph per line, txt/xml/odt outputs are the plain
text, a pdf is one preformatted text block, a csv is rows of cells. -/
inductive OutDoc where
  | docx (paras : List Str)
  | plain (content : Str)
  | pdf (content : Str)
  | csv (rows : List (List Str))
deriving DecidableEq

/-- One page of a pdfplumber document: `page.extract_text()` (a falsy
result — `None` or `""` — is modelled as `[]`) and
`page.extract_tables()` (tables, of rows, of cells; a falsy cell is
modelled as `[]`).  Either call may raise. -/
structure PdfPage where
  text : Except Str Str
  tables : Except Str (List (List (List Str)))

/-- An ElementTree node: `.text`, `.tail` (falsy modelled as `[]`) and
child elements. -/
inductive Xml where
  | mk (text : Str) (tl : Str) (children : List Xml)

def Xml.tailOf : Xml → Str
  | .mk _ tl _ => tl

/-! ## Document Extractor -/

/-- `extract_text_from_xml` (source lines 500-509): element text plus a
space, then recursively each child followed by its tail plus a space. -/
def xmlExtract : Xml → Str
  | .mk t _ cs =>
    (if t ≠ [] then t ++ [' '] else []) ++
      (cs.attach.map
        (fun c => xmlExtract c.1 ++ (if c.1.tailOf ≠ [] then c.1.tailOf ++ [' '] else []))).flatten
decreasing_by
  have := List.sizeOf_lt_of_mem c.2
  simp only [Xml.mk.sizeOf_spec]
  omega

/-- CSV extraction (source lines 315-321): each row's cells joined with a
single space, one row per line. -/
def csvText (rows : List (List Str)) : Str :=
  rows.foldl (fun acc r => acc ++ pyJoin (str " ") r ++ str "\n") []

/-- ODT extraction (source lines 329-337): per paragraph, concatenate the
data of its text nodes (`some d` models a text node), then a newline. -/
def odtText (paras : List (List (Option Str))) : Str :=
  (paras.map (fun p => (p.filterMap id).flatten ++ str "\n")).flatten

/-- DOCX extraction (source line 287): paragraph texts joined with newlines. -/
def docxExtract (paras : List Str) : Str := pyJoin (str "\n") paras

/-- The text accumulated over a pdf's tables (source lines 307-311):
for each table, for each row, the space-joined cells plus a newline. -/
def tablesText (tables : List (List (List Str))) : Str :=
  (tables.map (fun tb => (tb.map (fun r => pyJoin (str " ") r ++ str "\n")).flatten)).flatten

/-- First pdf pass (source lines 297-301): page by page, append each
truthy text layer plus a newline; stop at the first exception, keeping
the text accumulated so far. -/
def pdfFirstPass : List PdfPage → Str → Str × Option Str
  | [], acc => (acc, none)
  | p :: ps, acc =>
    match p.text with
    | .error e => (acc, some e)
    | .ok t => pdfFirstPass ps (if t ≠ [] then acc ++ t ++ str "\n" else acc)

/-- Fallback pdf pass (source lines 304-313): page by page, append the
table text of every page; a bare `except: pass` stops at the first
exception, keeping the text accumulated so far. -/
def pdfSecondPass : List PdfPage → Str → Str
  | [], acc => acc
  | p :: ps, acc =>
    match p.tables with
    | .error _ => acc
    | .ok ts => pdfSecondPass ps (acc ++ tablesText ts)

/-- PDF extraction (source lines 293-313).  The whole text pass sits in a
`try`; on any exception the file is reopened (same document value) and
the table fallback runs over all pages, appending to the text already
accumulated; its own exceptions are swallowed.  Extraction of a pdf
therefore never raises. -/
def pdfExtract (pdf : Except Str (List PdfPage)) : Str :=
  match pdf with
  | .error _ => []
  | .ok pages =>
    match pdfFirstPass pages [] with
    | (acc, none) => acc
    | (acc, some _) => pdfSecondPass pages acc

/-- Stated from the spec's words, for comparison with `pdfExtract`
(spec §4.1): "extract text per page in page order; if no extractable
text layer exists on a page, attempt to recover textual content from
embedded tabular structures on that page ... as a fallback; if both
fail, that page contributes no text". -/
def pageTextSpec (p : PdfPage) : Str :=
  match p.text with
  | .ok t =>
    if t ≠ [] then t ++ str "\n"
    else match p.tables with
      | .ok ts => tablesText ts
      | .error _ => []
  | .error _ =>
    match p.tables with
    | .ok ts => tablesText ts
    | .error _ => []

/-- Per-page-fallback pdf extraction as the spec describes it. -/
def pdfExtractPerPage (pdf : Except Str (List PdfPage)) : Str :=
  match pdf with
  | .error _ => []
  | .ok pages => (pages.map pageTextSpec).flatten

/-- The text-layer-only reading of a pdf: each page's truthy text layer
plus a newline, tables never consulted.  Used to characterize
`pdfExtract` on pdfs whose text extraction raises nowhere. -/
def textLayersOnly (pages : List PdfPage) : Str :=
  (pages.map (fun p =>
    match p.text with
    | .ok t => if t ≠ [] then t ++ str "\n" else []
    | .error _ => [])).flatten

/-- The table text of the pages up to (excluding) the first page whose
table extraction raises.  Used to characterize the fallback pass. -/
def tablesUpToErr : List PdfPage → Str
  | [] => []
  | p :: ps =>
    match p.tables with
    | .error _ => []
    | .ok ts => tablesText ts ++ tablesUpToErr ps

/-! ## External collaborators -/

/-- The fallible collaborators of one run: format readers (Python file
and parser I/O), the Presidio analyzer and anonymizer, and the write
side.  An `Except.error` models a raised exception with its message. -/
structure Env where
  readDocx : Str → Except Str (List Str)
  readTxt : Str → Except Str Str
  readPdf : Str → Except Str (List PdfPage)
  readCsv : Str → Except Str (List (List Str))
  readXml : Str → Except Str Xml
  readOdt : Str → Except Str (List (List (Option Str)))
  analyze : Str → List Str → ℚ → Except Str (List Span)
  anonymizeT : Str → List Span → Option (List (Str × OperatorConfig)) → Except Str Str
  write : Str → OutDoc → Except Str Unit

/-! ## Anonymization Policy Engine -/

/-- The operators dict (source lines 468-485), keyed by enabled entity,
determined by the method: none for `replace`, `redact` / `hash`
operators per entity, and for `mask` the fixed `*` mask of the first
100 characters from the span start. -/
def buildOperators (method : Method) (entities : List Str) : List (Str × OperatorConfig) :=
  match method with
  | .replace => []
  | .redact => entities.map (fun e => (e, .redact))
  | .hash => entities.map (fun e => (e, .hash))
  | .mask => entities.map (fun e => (e, .mask '*' 100 false))

/-- `operators if operators else None` (source line 491). -/
def opsOption (ops : List (Str × OperatorConfig)) : Option (List (Str × OperatorConfig)) :=
  if ops.isEmpty then none else some ops

/-- `anonymize_text_presidio` (source lines 446-498).  Any exception from
the analyzer or the anonymizer is caught and the original text is
returned unmodified.  The second component records each construction of
the operators dict (it is rebuilt on every call that reaches it, i.e.
whenever the analyze call returns). -/
def anonymize_text_presidio (env : Env) (cfg : AnonymizationConfig) (text : Str) :
    Str × List (List (Str × OperatorConfig)) :=
  match env.analyze text cfg.entities cfg.threshold with
  | .error _ => (text, [])
  | .ok results =>
    let ops := buildOperators cfg.method cfg.entities
    match env.anonymizeT text results (opsOption ops) with
    | .ok t => (t, [ops])
    | .error _ => (text, [ops])

/-! ## Batch Orchestrator -/

/-- The extraction dispatch (source lines 284-340), keyed on the
lowercased extension; an unrecognized extension raises
`ValueError(f"Unsupported file type: {file_ext}")`. -/
def extractStep (env : Env) (path fext : Str) : Except Str Str :=
  if fext = str ".docx" then (env.readDocx path).map docxExtract
  else if fext = str ".txt" then env.readTxt path
  else if fext = str ".pdf" then .ok (pdfExtract (env.readPdf path))
  else if fext = str ".csv" then (env.readCsv path).map csvText
  else if fext = str ".xml" then (env.readXml path).map xmlExtract
  else if fext = str ".odt" then (env.readOdt path).map odtText
  else .error (str "Unsupported file type: " ++ fext)

/-- The write preparation (source lines 353-395): the output file name
(the original name with every occurrence of the extension replaced via
Python `str.replace`, `.odt` downgraded to `.txt`) and the document to
write.  Only reached for the six supported extensions, so the final
branch is the `.odt` case. -/
def prepareOutput (fext file anonText : Str) : Str × OutDoc :=
  if fext = str ".docx" then
    (replAll file (str ".docx") (str "_anonymized.docx"), .docx (splitNl anonText))
  else if fext = str ".txt" then
    (replAll file (str ".txt") (str "_anonymized.txt"), .plain anonText)
  else if fext = str ".pdf" then
    (replAll file (str ".pdf") (str "_anonymized.pdf"), .pdf anonText)
  else if fext = str ".csv" then
    (replAll file (str ".csv") (str "_anonymized.csv"),
      .csv (((splitNl anonText).filter (fun l => l.any (fun c => !isWs c))).map pySplitWs))
  else if fext = str ".xml" then
    (replAll file (str ".xml") (str "_anonymized.xml"), .plain anonText)
  else
    (replAll file (str ".odt") (str "_anonymized.txt"), .plain anonText)

/-- The output file name produced for a given input file name. -/
def outName (file : Str) : Str := (prepareOutput (extLower file) file []).1

/-- The body of the per-file `try` (source lines 275-403): extract,
anonymize, write.  Returns the success record and the performed write,
or the exception that escaped; alongside, the operator-dict
constructions performed (they survive into the `except` path). -/
def tryBody (env : Env) (cfg : AnonymizationConfig) (outDir uid path : Str) :
    Except Str (MappingRecord × List (Str × OutDoc)) × List (List (Str × OperatorConfig)) :=
  let file := basename path
  let fext := extLower file
  match extractStep env path fext with
  | .error e => (.error e, [])
  | .ok fullText =>
    let (anonText, plans) := anonymize_text_presidio env cfg fullText
    let (nfn, doc) := prepareOutput fext file anonText
    match env.write (pathJoin outDir nfn) doc with
    | .error e => (.error e, plans)
    | .ok _ => (.ok (⟨file, nfn, uid⟩, [(pathJoin outDir nfn, doc)]), plans)

/-- What one loop iteration observably does. -/
structure FileOutcome where
  record : MappingRecord
  writes : List (Str × OutDoc)
  plans : List (List (Str × OperatorConfig))
deriving DecidableEq

/-- One iteration of the batch loop (source lines 274-411): run the try
body; on an exception append the `ERROR` record instead. -/
def processOne (env : Env) (cfg : AnonymizationConfig) (outDir uid path : Str) : FileOutcome :=
  match tryBody env cfg outDir uid path with
  | (.ok (r, ws), pl) => ⟨r, ws, pl⟩
  | (.error e, pl) => ⟨errorRec (basename path) e, [], pl⟩

/-- The accumulated observations of a batch run. -/
structure BatchOutcome where
  recs : List MappingRecord
  writes : List (Str × OutDoc)
  plans : List (List (Str × OperatorConfig))
deriving DecidableEq

/-- The batch loop from position `i` on: `uuidGen i` models the
`str(uuid.uuid4())` drawn at iteration `i`. -/
def runBatchAux (env : Env) (cfg : AnonymizationConfig) (outDir : Str) (uuidGen : Nat → Str) :
    Nat → List Str → BatchOutcome
  | _, [] => ⟨[], [], []⟩
  | i, p :: ps =>
    let o := processOne env cfg outDir (uuidGen i) p
    let rest := runBatchAux env cfg outDir uuidGen (i + 1) ps
    ⟨o.record :: rest.recs, o.writes ++ rest.writes, o.plans ++ rest.plans⟩

/-- The whole batch loop (source lines 272-414), over the discovered
files in order. -/
def runBatch (env : Env) (cfg : AnonymizationConfig) (outDir : Str) (uuidGen : Nat → Str)
    (files : List Str) : BatchOutcome :=
  runBatchAux env cfg outDir uuidGen 0 files

/-! ## Concrete instances used in witnesses and counterexamples -/

/-- An environment where every read succeeds (txt files contain
`"hello"`), the analyzer finds nothing, the anonymizer is the identity,
and writes succeed. -/
def env0 : Env where
  readDocx := fun _ => .ok []
  readTxt := fun _ => .ok (str "hello")
  readPdf := fun _ => .ok []
  readCsv := fun _ => .ok []
  readXml := fun _ => .ok (.mk [] [] [])
  readOdt := fun _ => .ok []
  analyze := fun _ _ _ => .ok []
  anonymizeT := fun t _ _ => .ok t
  write := fun _ _ => .ok ()

/-- Like `env0` but every txt read raises `boom`. -/
def envFail : Env :=
  { env0 with readTxt := fun _ => .error (str "boom") }

/-- Like `env0` but the analyzer raises `presidio down`. -/
def envAnalyzeFail : Env :=
  { env0 with analyze := fun _ _ _ => .error (str "presidio down") }

def cfg0 : AnonymizationConfig := ⟨[str "PERSON"], .replace, 1 / 2⟩

def cfgMask : AnonymizationConfig := ⟨[str "PERSON"], .mask, 1 / 2⟩

def ug0 : Nat → Str := fun i => str "uuid-" ++ (Nat.toDigits 10 i).map id

/-! ## Supporting lemmas -/

theorem splitNl_ne_nil (t : Str) : splitNl t ≠ [] := by
  cases t with
  | nil => simp [splitNl]
  | cons c cs =>
    simp only [splitNl]
    split
    · simp
    · cases h : splitNl cs <;> simp

/-- `"\n".join(s.split("\n")) == s`: the docx write/extract round trip
is exact. -/
theorem pyJoin_splitNl (t : Str) : pyJoin (str "\n") (splitNl t) = t := by
  induction t with
  | nil => rfl
  | cons c cs ih =>
    by_cases hc : c = '\n'
    · subst hc
      simp only [splitNl, if_pos rfl]
      cases h : splitNl cs with
      | nil => exact absurd h (splitNl_ne_nil cs)
      | cons l ls =>
        rw [h] at ih
        show [] ++ str "\n" ++ pyJoin (str "\n") (l :: ls) = '\n' :: cs
        rw [ih]
        rfl
    · simp only [splitNl, if_neg hc]
      cases h : splitNl cs with
      | nil => exact absurd h (splitNl_ne_nil cs)
      | cons l ls =>
        rw [h] at ih
        cases ls with
        | nil =>
          show c :: l = c :: cs
          rw [show l = pyJoin (str "\n") [l] from rfl, ih]
        | cons m ms =>
          show (c :: l) ++ str "\n" ++ pyJoin (str "\n") (m :: ms) = c :: cs
          rw [← ih]
          rfl

theorem splitNl_append_cons (x rest : Str) (hx : ∀ c ∈ x, c ≠ '\n') :
    splitNl (x ++ '\n' :: rest) = x :: splitNl rest := by
  induction x with
  | nil => simp [splitNl]
  | cons c x' ih =>
    have hc : c ≠ '\n' := hx c (by simp)
    have ih' := ih (fun d hd => hx d (by simp [hd]))
    simp only [List.cons_append, splitNl, if_neg hc]
    rw [show x'.append ('\n' :: rest) = x' ++ '\n' :: rest from rfl, ih']

theorem splitNl_flatten_lines (xs : List Str) (h : ∀ x ∈ xs, ∀ c ∈ x, c ≠ '\n') :
    splitNl ((xs.map (fun x => x ++ str "\n")).flatten) = xs ++ [[]] := by
  induction xs with
  | nil => rfl
  | cons x xs' ih =>
    have hx : ∀ c ∈ x, c ≠ '\n' := h x (by simp)
    have ih' := ih (fun y hy => h y (by simp [hy]))
    simp only [List.map_cons, List.flatten_cons, List.append_assoc]
    show splitNl (x ++ '\n' :: (xs'.map (fun x => x ++ str "\n")).flatten) = (x :: xs') ++ [[]]
    rw [splitNl_append_cons x _ hx, ih']
    rfl

theorem pySplitWsAux_tokens (l : Str) :
    ∀ acc, (∀ c ∈ acc, isWs c = false) →
      ∀ tok ∈ pySplitWsAux l acc, ∀ c ∈ tok, isWs c = false := by
  induction l with
  | nil =>
    intro acc hacc tok htok c hc
    simp only [pySplitWsAux] at htok
    split at htok
    · simp at htok
    · simp only [List.mem_singleton] at htok
      subst htok
      exact hacc c (List.mem_reverse.mp hc)
  | cons d ds ih =>
    intro acc hacc tok htok c hc
    simp only [pySplitWsAux] at htok
    by_cases hd : isWs d
    · rw [if_pos hd] at htok
      split at htok
      · exact ih [] (by simp) tok htok c hc
      · rcases List.mem_cons.mp htok with h | h
        · subst h
          exact hacc c (List.mem_reverse.mp hc)
        · exact ih [] (by simp) tok h c hc
    · rw [if_neg hd] at htok
      refine ih (d :: acc) ?_ tok htok c hc
      intro e he
      rcases List.mem_cons.mp he with h | h
      · subst h; exact Bool.eq_false_iff.mpr hd
      · exact hacc e h

theorem pySplitWs_tokens (l : Str) :
    ∀ tok ∈ pySplitWs l, ∀ c ∈ tok, isWs c = false :=
  pySplitWsAux_tokens l [] (by simp)

theorem pyJoin_space_no_nl (toks : List Str)
    (h : ∀ t ∈ toks, ∀ c ∈ t, isWs c = false) :
    ∀ c ∈ pyJoin (str " ") toks, c ≠ '\n' := by
  induction toks with
  | nil => simp [pyJoin]
  | cons x xs ih =>
    intro c hc
    have hx : ∀ d ∈ x, isWs d = false := h x (by simp)
    have hnotnl : ∀ d ∈ x, d ≠ '\n' := by
      intro d hd he
      subst he
      simpa [isWs] using hx '\n' hd
    cases xs with
    | nil => exact hnotnl c hc
    | cons y ys =>
      simp only [pyJoin, List.mem_append] at hc
      rcases hc with (hc | hc) | hc
      · exact hnotnl c hc
      · simp only [str] at hc
        simp only [List.mem_singleton.mp (by simpa using hc)]
        decide
      · exact ih (fun t ht => h t (by simp [ht])) c hc

theorem csvText_eq_flatten (rows : List (List Str)) :
    csvText rows = (rows.map (fun r => pyJoin (str " ") r ++ str "\n")).flatten := by
  suffices h : ∀ acc, rows.foldl (fun acc r => acc ++ pyJoin (str " ") r ++ str "\n") acc =
      acc ++ (rows.map (fun r => pyJoin (str " ") r ++ str "\n")).flatten by
    simpa [csvText] using h []
  induction rows with
  | nil => simp
  | cons r rs ih =>
    intro acc
    rw [List.foldl_cons, ih, List.map_cons, List.flatten_cons]
    simp [List.append_assoc]

theorem dropLast_cons_ne {α : Type} (c : α) {l : List α} (h : l ≠ []) :
    (c :: l).dropLast = c :: l.dropLast := by
  cases l with
  | nil => exact absurd rfl h
  | cons d ds => rfl

theorem occursIn_of_isPrefixOf {old l : Str} (h : old.isPrefixOf l = true) :
    occursIn old l = true := by
  cases l with
  | nil =>
    cases old with
    | nil => rfl
    | cons c cs => simp [List.isPrefixOf] at h
  | cons c cs => simp [occursIn, h]

theorem occursIn_cons_false {old : Str} {c : Char} {cs : Str}
    (h : occursIn old (c :: cs) = false) :
    old.isPrefixOf (c :: cs) = false ∧ occursIn old cs = false := by
  simpa [occursIn] using h

theorem isPrefixOf_dropLast {p l : Str} (h : p.isPrefixOf l = true)
    (hlt : p.length < l.length) : p.isPrefixOf l.dropLast = true := by
  rw [List.isPrefixOf_iff_prefix] at h ⊢
  have heq : p = l.take p.length := List.prefix_iff_eq_take.mp h
  rw [List.prefix_iff_eq_take, List.dropLast_eq_take, List.take_take,
    min_eq_left (by omega)]
  exact heq

theorem replAllF_stem (old new : Str) (hold : old ≠ []) :
    ∀ (stem : Str) (fuel : Nat), (stem ++ old).length ≤ fuel →
      occursIn old ((stem ++ old).dropLast) = false →
      replAllF old new fuel (stem ++ old) = stem ++ new := by
  intro stem
  induction stem with
  | nil =>
    intro fuel hf hocc
    cases old with
    | nil => exact absurd rfl hold
    | cons c cs =>
      cases fuel with
      | zero => simp at hf
      | succ f =>
        simp only [List.nil_append] at hocc ⊢
        simp only [replAllF,
          if_pos (List.isPrefixOf_iff_prefix.mpr (List.prefix_refl (c :: cs))),
          List.drop_length]
        cases f <;> simp [replAllF]
  | cons c st ih =>
    intro fuel hf hocc
    have hne : st ++ old ≠ [] := by
      cases old with
      | nil => exact absurd rfl hold
      | cons d ds => simp
    rw [List.cons_append, dropLast_cons_ne c hne] at hocc
    obtain ⟨hocc0, hocc'⟩ := occursIn_cons_false hocc
    have hpre : old.isPrefixOf (c :: (st ++ old)) = false := by
      cases hb : old.isPrefixOf (c :: (st ++ old)) with
      | false => rfl
      | true =>
        have hlt : old.length < (c :: (st ++ old)).length := by
          simp [List.length_append]
          omega
        have := occursIn_of_isPrefixOf (isPrefixOf_dropLast hb hlt)
        rw [dropLast_cons_ne c hne] at this
        rw [this] at hocc
        simp at hocc
    cases fuel with
    | zero => simp at hf
    | succ f =>
      have hstep : replAllF old new (f + 1) (c :: (st ++ old)) =
          c :: replAllF old new f (st ++ old) := by
        show (if old.isPrefixOf (c :: (st ++ old)) = true
            then new ++ replAllF old new f ((c :: (st ++ old)).drop old.length)
            else c :: replAllF old new f (st ++ old)) = c :: replAllF old new f (st ++ old)
        rw [if_neg]
        simp [hpre]
      rw [List.cons_append, hstep]
      congr 1
      refine ih f ?_ hocc'
      simp only [List.cons_append, List.length_cons] at hf
      omega

/-- Python `s.replace(old, new)` on a string of the form `stem ++ old`
in which `old` occurs only as the final suffix rewrites exactly that
suffix. -/
theorem replAll_single_occurrence (old new stem : Str) (hold : old ≠ [])
    (hocc : occursIn old ((stem ++ old).dropLast) = false) :
    replAll (stem ++ old) old new = stem ++ new :=
  replAllF_stem old new hold stem (stem ++ old).length le_rfl hocc

theorem takeWhile_append_stop {p : Char → Bool} (l1 : Str)
    (h1 : ∀ c ∈ l1, p c = true) {x : Char} (hx : p x = false) (l2 : Str) :
    (l1 ++ x :: l2).takeWhile p = l1 := by
  induction l1 with
  | nil => simp [List.takeWhile, hx]
  | cons c cs ih =>
    have hc : p c = true := h1 c (by simp)
    simp only [List.cons_append, List.takeWhile_cons, hc, if_true]
    rw [ih (fun d hd => h1 d (by simp [hd]))]

theorem drop_append_cons (l1 : Str) (x : Char) (l2 : Str) :
    (l1 ++ x :: l2).drop (l1.length + 1) = l2 := by
  rw [show l1 ++ x :: l2 = (l1 ++ [x]) ++ l2 by simp,
    show l1.length + 1 = (l1 ++ [x]).length by simp]
  exact List.drop_left (l1 ++ [x]) l2

/-- `os.path.splitext` on a name of the form `stem ++ "." ++ tail`, with
`tail` a dot-free extension body and `stem` containing some non-dot
character, yields exactly that final extension. -/
theorem extOf_append_dotext (stem tail : Str)
    (hnd : ∀ c ∈ tail, (!(c == '.')) = true)
    (hstem : stem.any (fun c => !(c == '.')) = true) :
    extOf (stem ++ '.' :: tail) = '.' :: tail := by
  have hrev : (stem ++ '.' :: tail).reverse = tail.reverse ++ '.' :: stem.reverse := by
    simp
  have hpre : (tail.reverse ++ '.' :: stem.reverse).takeWhile (fun c => !(c == '.')) =
      tail.reverse :=
    takeWhile_append_stop tail.reverse
      (fun c hc => hnd c (List.mem_reverse.mp hc)) (by simp) stem.reverse
  simp only [extOf, hrev, hpre]
  have hlen : tail.reverse.length ≠ (tail.reverse ++ '.' :: stem.reverse).length := by
    simp
  rw [if_neg hlen]
  rw [show tail.reverse.length + 1 = tail.reverse.length + 1 from rfl,
    drop_append_cons tail.reverse '.' stem.reverse]
  rw [if_pos (by simpa using hstem)]
  simp

theorem runBatchAux_recs_length (env : Env) (cfg : AnonymizationConfig) (outDir : Str)
    (ug : Nat → Str) : ∀ (files : List Str) (i : Nat),
    (runBatchAux env cfg outDir ug i files).recs.length = files.length := by
  intro files
  induction files with
  | nil => intro i; rfl
  | cons p ps ih => intro i; simp [runBatchAux, ih (i + 1)]

theorem runBatchAux_recs_getElem (env : Env) (cfg : AnonymizationConfig) (outDir : Str)
    (ug : Nat → Str) : ∀ (files : List Str) (i j : Nat) (hj : j < files.length),
    (runBatchAux env cfg outDir ug i files).recs[j]? =
      some (processOne env cfg outDir (ug (i + j)) files[j]).record := by
  intro files
  induction files with
  | nil => intro i j hj; simp at hj
  | cons p ps ih =>
    intro i j hj
    cases j with
    | zero => simp [runBatchAux]
    | succ k =>
      have hk : k < ps.length := by simpa using hj
      have := ih (i + 1) k hk
      simp only [runBatchAux, List.getElem?_cons_succ]
      rw [this]
      have : i + 1 + k = i + (k + 1) := by omega
      simp [this]

theorem pdfFirstPass_all_ok (pages : List PdfPage)
    (h : ∀ p ∈ pages, p.text.isOk = true) :
    ∀ acc : Str, pdfFirstPass pages acc = (acc ++ textLayersOnly pages, none) := by
  induction pages with
  | nil => intro acc; simp [pdfFirstPass, textLayersOnly]
  | cons p ps ih =>
    intro acc
    have hp : p.text.isOk = true := h p (by simp)
    cases htext : p.text with
    | error e => rw [htext] at hp; simp [Except.isOk, Except.toBool] at hp
    | ok t =>
      have ih' := ih (fun q hq => h q (by simp [hq]))
      simp only [pdfFirstPass, htext, ih', textLayersOnly, List.map_cons, List.flatten_cons]
      by_cases ht : t ≠ [] <;> simp [ht, textLayersOnly, List.append_assoc]

theorem pdfFirstPass_prefix_err (ps : List PdfPage)
    (h : ∀ q ∈ ps, q.text.isOk = true) (p : PdfPage) (e : Str)
    (hp : p.text = .error e) (qs : List PdfPage) :
    ∀ acc : Str, pdfFirstPass (ps ++ p :: qs) acc = (acc ++ textLayersOnly ps, some e) := by
  induction ps with
  | nil =>
    intro acc
    simp [pdfFirstPass, hp, textLayersOnly]
  | cons r rs ih =>
    intro acc
    have hr : r.text.isOk = true := h r (by simp)
    cases htext : r.text with
    | error e' => rw [htext] at hr; simp [Except.isOk, Except.toBool] at hr
    | ok t =>
      have ih' := ih (fun q hq => h q (by simp [hq]))
      simp only [List.cons_append, pdfFirstPass, htext, ih', textLayersOnly,
        List.map_cons, List.flatten_cons]
      by_cases ht : t ≠ [] <;> simp [ht, ih', textLayersOnly, List.append_assoc]

theorem pdfSecondPass_eq (pages : List PdfPage) :
    ∀ acc : Str, pdfSecondPass pages acc = acc ++ tablesUpToErr pages := by
  induction pages with
  | nil => intro acc; simp [pdfSecondPass, tablesUpToErr]
  | cons p ps ih =>
    intro acc
    cases htab : p.tables with
    | error e => simp [pdfSecondPass, htab, tablesUpToErr]
    | ok ts => simp [pdfSecondPass, htab, tablesUpToErr, ih, List.append_assoc]

theorem prepareOutput_fst_text (fext file t t' : Str) :
    (prepareOutput fext file t).1 = (prepareOutput fext file t').1 := by
  unfold prepareOutput
  split_ifs <;> rfl

theorem processOne_writes_path (env : Env) (cfg : AnonymizationConfig)
    (outDir uid path : Str) :
    ∀ w ∈ (processOne env cfg outDir uid path).writes,
      w.1 = pathJoin outDir (outName (basename path)) := by
  intro w hw
  simp only [processOne, tryBody] at hw
  cases hext : extractStep env path (extLower (basename path)) with
  | error e => simp only [hext] at hw; simp at hw
  | ok ft =>
    simp only [hext] at hw
    rcases hano : anonymize_text_presidio env cfg ft with ⟨a, pl⟩
    simp only [hano] at hw
    rcases hprep : prepareOutput (extLower (basename path)) (basename path) a with ⟨nfn, doc⟩
    simp only [hprep] at hw
    cases hwr : env.write (pathJoin outDir nfn) doc with
    | error e => simp only [hwr] at hw; simp at hw
    | ok u =>
      simp only [hwr] at hw
      simp only [List.mem_singleton] at hw
      subst hw
      have : outName (basename path) = nfn := by
        rw [outName, prepareOutput_fst_text _ _ [] a, hprep]
      rw [this]

theorem anonymize_plans (env : Env) (cfg : AnonymizationConfig) (t : Str) :
    ∀ pl ∈ (anonymize_text_presidio env cfg t).2,
      pl = buildOperators cfg.method cfg.entities := by
  intro pl hpl
  simp only [anonymize_text_presidio] at hpl
  cases ha : env.analyze t cfg.entities cfg.threshold with
  | error e => simp only [ha] at hpl; simp at hpl
  | ok rs =>
    simp only [ha] at hpl
    cases hb : env.anonymizeT t rs (opsOption (buildOperators cfg.method cfg.entities)) with
    | error e => simp only [hb] at hpl; simpa using hpl
    | ok u => simp only [hb] at hpl; simpa using hpl

theorem processOne_plans (env : Env) (cfg : AnonymizationConfig) (outDir uid path : Str) :
    ∀ pl ∈ (processOne env cfg outDir uid path).plans,
      pl = buildOperators cfg.method cfg.entities := by
  intro pl hpl
  simp only [processOne, tryBody] at hpl
  cases hext : extractStep env path (extLower (basename path)) with
  | error e => simp only [hext] at hpl; simp at hpl
  | ok ft =>
    simp only [hext] at hpl
    rcases hano : anonymize_text_presidio env cfg ft with ⟨a, pl'⟩
    simp only [hano] at hpl
    rcases hprep : prepareOutput (extLower (basename path)) (basename path) a with ⟨nfn, doc⟩
    simp only [hprep] at hpl
    have hpl' : pl ∈ pl' := by
      cases hwr : env.write (pathJoin outDir nfn) doc with
      | error e => simp only [hwr] at hpl; simpa using hpl
      | ok u => simp only [hwr] at hpl; simpa using hpl
    have := anonymize_plans env cfg ft pl
    rw [hano] at this
    exact this hpl'

theorem runBatchAux_plans (env : Env) (cfg : AnonymizationConfig) (outDir : Str)
    (ug : Nat → Str) : ∀ (files : List Str) (i : Nat),
    ∀ pl ∈ (runBatchAux env cfg outDir ug i files).plans,
      pl = buildOperators cfg.method cfg.entities := by
  intro files
  induction files with
  | nil => intro i pl hpl; simp [runBatchAux] at hpl
  | cons p ps ih =>
    intro i pl hpl
    simp only [runBatchAux, List.mem_append] at hpl
    rcases hpl with h | h
    · exact processOne_plans env cfg outDir (ug i) p pl h
    · exact ih (i + 1) pl h

theorem lookup_map_const (es : List Str) (v : OperatorConfig) (x : Str) (hx : x ∈ es) :
    (es.map (fun e => (e, v))).lookup x = some v := by
  induction es with
  | nil => simp at hx
  | cons e es' ih =>
    by_cases hxe : x = e
    · subst hxe; simp [List.lookup]
    · have hx' : x ∈ es' := by
        rcases List.mem_cons.mp hx with h | h
        · exact absurd h hxe
        · exact h
      simp [List.lookup, hxe, ih hx']
      cases x == e <;> rfl

theorem discoverDir_eq (root : Str) (fs : List Str) :
    discoverDir root fs = (fs.filter isSupportedFile).map (pathJoin root) := by
  induction fs with
  | nil => rfl
  | cons f fs' ih => by_cases hf : isSupportedFile f <;> simp [discoverDir, hf, ih]

/-! ## Claims -/

/-- C1: for every batch run and every discovered input file, if any of the
per-file steps raises an exception that escapes the try body, the
orchestrator catches it, appends a MappingRecord with output name
`ERROR` and third field `Error: <message>`, and continues: the record
list still has one entry per file, and every file's record (including
all later ones) is exactly the outcome of processing that file. -/
theorem claim_C1 (env : Env) (cfg : AnonymizationConfig) (outDir : Str) (ug : Nat → Str)
    (files : List Str) (j : Nat) (e : Str) (hj : j < files.length)
    (hfail : (tryBody env cfg outDir (ug j) files[j]).1 = .error e) :
    (runBatch env cfg outDir ug files).recs[j]? =
      some (errorRec (basename files[j]) e)
    ∧ (runBatch env cfg outDir ug files).recs.length = files.length
    ∧ ∀ (k : Nat) (hk : k < files.length),
        (runBatch env cfg outDir ug files).recs[k]? =
          some (processOne env cfg outDir (ug k) files[k]).record := by
  have hget : ∀ (k : Nat) (hk : k < files.length),
      (runBatch env cfg outDir ug files).recs[k]? =
        some (processOne env cfg outDir (ug k) files[k]).record := by
    intro k hk
    simpa [runBatch] using runBatchAux_recs_getElem env cfg outDir ug files 0 k hk
  refine ⟨?_, runBatchAux_recs_length env cfg outDir ug files 0, hget⟩
  rw [hget j hj]
  rcases htb : tryBody env cfg outDir (ug j) files[j] with ⟨res, pl⟩
  rw [htb] at hfail
  simp only at hfail
  subst hfail
  simp [processOne, htb]

theorem claim_C1_witness :
    (runBatch envFail cfg0 (str "out") ug0 [str "in/x.txt"]).recs[0]? =
      some (errorRec (str "x.txt") (str "boom"))
    ∧ (runBatch envFail cfg0 (str "out") ug0 [str "in/x.txt"]).recs.length = 1 := by
  have h := claim_C1 envFail cfg0 (str "out") ug0 [str "in/x.txt"] 0 (str "boom")
    (by decide) (by decide)
  exact ⟨by rw [h.1]; decide, h.2.1⟩

/-- C2: for every batch run over a nonempty discovered file list, the
mapping sequence has exactly one record per discovered file, and the
`j`-th record is the outcome of processing the `j`-th discovered file —
the records are in discovery order. -/
theorem claim_C2 (env : Env) (cfg : AnonymizationConfig) (outDir : Str) (ug : Nat → Str)
    (walk : List (Str × List Str)) (_hne : discoverFiles walk ≠ []) :
    (runBatch env cfg outDir ug (discoverFiles walk)).recs.length =
      (discoverFiles walk).length
    ∧ ∀ (j : Nat) (hj : j < (discoverFiles walk).length),
        (runBatch env cfg outDir ug (discoverFiles walk)).recs[j]? =
          some (processOne env cfg outDir (ug j) (discoverFiles walk)[j]).record := by
  refine ⟨runBatchAux_recs_length env cfg outDir ug (discoverFiles walk) 0, ?_⟩
  intro j hj
  simpa [runBatch] using
    runBatchAux_recs_getElem env cfg outDir ug (discoverFiles walk) 0 j hj

theorem claim_C2_witness :
    (runBatch env0 cfg0 (str "out") ug0 (discoverFiles [(str "in", [str "a.txt"])])).recs.length =
      (discoverFiles [(str "in", [str "a.txt"])]).length :=
  (claim_C2 env0 cfg0 (str "out") ug0 [(str "in", [str "a.txt"])] (by decide)).1

/-- C3: if the analyzer (or the anonymizer) raises inside the
anonymization step of a `.txt` file, the engine returns the original
text unmodified, and the orchestrator records the file as a nominal
success: a record with the real output name and the freshly drawn
identifier, the original text being what is written. -/
theorem claim_C3 (env : Env) (cfg : AnonymizationConfig) (outDir uid path t e : Str)
    (rs : List Span)
    (hext : extLower (basename path) = str ".txt")
    (hread : env.readTxt path = .ok t)
    (hwrite : env.write
      (pathJoin outDir (replAll (basename path) (str ".txt") (str "_anonymized.txt")))
      (.plain t) = .ok ()) :
    (env.analyze t cfg.entities cfg.threshold = .error e →
      anonymize_text_presidio env cfg t = (t, [])
      ∧ processOne env cfg outDir uid path =
          ⟨⟨basename path, replAll (basename path) (str ".txt") (str "_anonymized.txt"), uid⟩,
           [(pathJoin outDir (replAll (basename path) (str ".txt") (str "_anonymized.txt")),
             .plain t)], []⟩)
    ∧ (env.analyze t cfg.entities cfg.threshold = .ok rs →
      env.anonymizeT t rs (opsOption (buildOperators cfg.method cfg.entities)) = .error e →
      (anonymize_text_presidio env cfg t).1 = t
      ∧ (processOne env cfg outDir uid path).record =
          ⟨basename path, replAll (basename path) (str ".txt") (str "_anonymized.txt"), uid⟩) := by
  have hstep : extractStep env path (str ".txt") = .ok t := by
    unfold extractStep
    rw [if_neg (by decide), if_pos rfl]
    exact hread
  have hprep : ∀ X : Str, prepareOutput (str ".txt") (basename path) X =
      (replAll (basename path) (str ".txt") (str "_anonymized.txt"), .plain X) := by
    intro X
    unfold prepareOutput
    rw [if_neg (by decide), if_pos rfl]
  constructor
  · intro ha
    have hanon : anonymize_text_presidio env cfg t = (t, []) := by
      simp only [anonymize_text_presidio, ha]
    refine ⟨hanon, ?_⟩
    simp only [processOne, tryBody, hext, hstep, hanon, hprep, hwrite]
  · intro ha hb
    have hanon : anonymize_text_presidio env cfg t =
        (t, [buildOperators cfg.method cfg.entities]) := by
      simp only [anonymize_text_presidio, ha, hb]
    refine ⟨by rw [hanon], ?_⟩
    simp only [processOne, tryBody, hext, hstep, hanon, hprep, hwrite]

theorem claim_C3_witness :
    anonymize_text_presidio envAnalyzeFail cfg0 (str "hello") = (str "hello", [])
    ∧ processOne envAnalyzeFail cfg0 (str "out") (str "u") (str "in/x.txt") =
        ⟨⟨str "x.txt", str "x_anonymized.txt", str "u"⟩,
         [(str "out/x_anonymized.txt", .plain (str "hello"))], []⟩ := by
  have h := (claim_C3 envAnalyzeFail cfg0 (str "out") (str "u") (str "in/x.txt")
    (str "hello") (str "presidio down") [] (by decide) (by decide) (by decide)).1 (by decide)
  exact ⟨h.1, by rw [h.2]; decide⟩

/-- C4 counterexample: writing the text `"a\n\nb"` through the tabular
(CSV) writer and extracting it back yields `"a\nb\n"` — the empty line
is dropped, so the round trip does not preserve every line's content in
order including empty lines, contrary to the claim. -/
theorem claim_C4_cex :
    (prepareOutput (str ".csv") (str "x.csv") (str "a\n\nb")).2 =
      OutDoc.csv [[str "a"], [str "b"]]
    ∧ csvText [[str "a"], [str "b"]] = str "a\nb\n"
    ∧ splitNl (str "a\nb\n") ≠ splitNl (str "a\n\nb") := by decide

/-- C4 (amended): the plain-text writer emits the text verbatim (exact
round trip); the paragraph (docx) round trip is exact —
`"\n".join(t.split("\n")) = t`; the tabular (CSV) round trip preserves
exactly the whitespace-normalized non-blank lines, in order — blank
lines are dropped and runs of whitespace inside a line collapse to
single spaces. -/
theorem claim_C4_amended (t : Str) :
    (prepareOutput (str ".txt") (str "x.txt") t).2 = OutDoc.plain t
    ∧ docxExtract (splitNl t) = t
    ∧ splitNl (csvText (((splitNl t).filter (fun l => l.any (fun c => !isWs c))).map pySplitWs)) =
        ((splitNl t).filter (fun l => l.any (fun c => !isWs c))).map
          (fun l => pyJoin (str " ") (pySplitWs l)) ++ [[]] := by
  refine ⟨by unfold prepareOutput; rw [if_neg (by decide), if_pos rfl], pyJoin_splitNl t, ?_⟩
  have hnl : ∀ x ∈ ((splitNl t).filter (fun l => l.any (fun c => !isWs c))).map
      (fun l => pyJoin (str " ") (pySplitWs l)), ∀ c ∈ x, c ≠ '\n' := by
    intro x hx c hc
    obtain ⟨l, _, rfl⟩ := List.mem_map.mp hx
    exact pyJoin_space_no_nl (pySplitWs l) (pySplitWs_tokens l) c hc
  calc splitNl (csvText (((splitNl t).filter (fun l => l.any (fun c => !isWs c))).map pySplitWs))
      = splitNl (((((splitNl t).filter (fun l => l.any (fun c => !isWs c))).map
          (fun l => pyJoin (str " ") (pySplitWs l))).map (fun x => x ++ str "\n")).flatten) := by
        rw [csvText_eq_flatten]
        congr 1
        simp [List.map_map, Function.comp_def]
    _ = ((splitNl t).filter (fun l => l.any (fun c => !isWs c))).map
          (fun l => pyJoin (str " ") (pySplitWs l)) ++ [[]] :=
        splitNl_flatten_lines _ hnl

/-- C5 counterexample: the discoverable input `a.txt.txt` is renamed via
Python `str.replace`, which rewrites every occurrence of `.txt`, so the
output name is `a_anonymized.txt_anonymized.txt`, not the
`a.txt_anonymized.txt` the claim requires (affecting only the final
extension occurrence). -/
theorem claim_C5_cex :
    isSupportedFile (str "a.txt.txt") = true
    ∧ (processOne env0 cfg0 (str "out") (str "u") (str "in/a.txt.txt")).record =
        ⟨str "a.txt.txt", str "a_anonymized.txt_anonymized.txt", str "u"⟩
    ∧ str "a_anonymized.txt_anonymized.txt" ≠ str "a.txt_anonymized.txt" := by decide

/-- C5 (amended): the output name replaces every occurrence of the
extension substring; for each of the six supported extensions, when the
extension occurs in the name only as its final suffix (and the stem has
a non-dot character, so `splitext` finds the extension), the result is
`<stem>_anonymized<ext>`, with the extension downgraded to `.txt` for
ODT inputs. -/
theorem claim_C5_amended (stem : Str)
    (hs : stem.any (fun c => !(c == '.')) = true) :
    (occursIn (str ".docx") ((stem ++ str ".docx").dropLast) = false →
      outName (stem ++ str ".docx") = stem ++ str "_anonymized.docx")
    ∧ (occursIn (str ".txt") ((stem ++ str ".txt").dropLast) = false →
      outName (stem ++ str ".txt") = stem ++ str "_anonymized.txt")
    ∧ (occursIn (str ".pdf") ((stem ++ str ".pdf").dropLast) = false →
      outName (stem ++ str ".pdf") = stem ++ str "_anonymized.pdf")
    ∧ (occursIn (str ".csv") ((stem ++ str ".csv").dropLast) = false →
      outName (stem ++ str ".csv") = stem ++ str "_anonymized.csv")
    ∧ (occursIn (str ".xml") ((stem ++ str ".xml").dropLast) = false →
      outName (stem ++ str ".xml") = stem ++ str "_anonymized.xml")
    ∧ (occursIn (str ".odt") ((stem ++ str ".odt").dropLast) = false →
      outName (stem ++ str ".odt") = stem ++ str "_anonymized.txt") := by
  refine ⟨?_, ?_, ?_, ?_, ?_, ?_⟩
  · intro hocc
    have hext : extLower (stem ++ str ".docx") = str ".docx" := by
      rw [extLower, show stem ++ str ".docx" = stem ++ '.' :: str "docx" from rfl,
        extOf_append_dotext stem (str "docx") (by decide) hs]
      rfl
    rw [outName, hext]
    unfold prepareOutput
    rw [if_pos rfl]
    exact replAll_single_occurrence (str ".docx") (str "_anonymized.docx") stem
      (by decide) hocc
  · intro hocc
    have hext : extLower (stem ++ str ".txt") = str ".txt" := by
      rw [extLower, show stem ++ str ".txt" = stem ++ '.' :: str "txt" from rfl,
        extOf_append_dotext stem (str "txt") (by decide) hs]
      rfl
    rw [outName, hext]
    unfold prepareOutput
    rw [if_neg (by decide), if_pos rfl]
    exact replAll_single_occurrence (str ".txt") (str "_anonymized.txt") stem (by decide) hocc
  · intro hocc
    have hext : extLower (stem ++ str ".pdf") = str ".pdf" := by
      rw [extLower, show stem ++ str ".pdf" = stem ++ '.' :: str "pdf" from rfl,
        extOf_append_dotext stem (str "pdf") (by decide) hs]
      rfl
    rw [outName, hext]
    unfold prepareOutput
    rw [if_neg (by decide), if_neg (by decide), if_pos rfl]
    exact replAll_single_occurrence (str ".pdf") (str "_anonymized.pdf") stem (by decide) hocc
  · intro hocc
    have hext : extLower (stem ++ str ".csv") = str ".csv" := by
      rw [extLower, show stem ++ str ".csv" = stem ++ '.' :: str "csv" from rfl,
        extOf_append_dotext stem (str "csv") (by decide) hs]
      rfl
    rw [outName, hext]
    unfold prepareOutput
    rw [if_neg (by decide), if_neg (by decide), if_neg (by decide), if_pos rfl]
    exact replAll_single_occurrence (str ".csv") (str "_anonymized.csv") stem (by decide) hocc
  · intro hocc
    have hext : extLower (stem ++ str ".xml") = str ".xml" := by
      rw [extLower, show stem ++ str ".xml" = stem ++ '.' :: str "xml" from rfl,
        extOf_append_dotext stem (str "xml") (by decide) hs]
      rfl
    rw [outName, hext]
    unfold prepareOutput
    rw [if_neg (by decide), if_neg (by decide), if_neg (by decide), if_neg (by decide),
      if_pos rfl]
    exact replAll_single_occurrence (str ".xml") (str "_anonymized.xml") stem (by decide) hocc
  · intro hocc
    have hext : extLower (stem ++ str ".odt") = str ".odt" := by
      rw [extLower, show stem ++ str ".odt" = stem ++ '.' :: str "odt" from rfl,
        extOf_append_dotext stem (str "odt") (by decide) hs]
      rfl
    rw [outName, hext]
    unfold prepareOutput
    rw [if_neg (by decide), if_neg (by decide), if_neg (by decide), if_neg (by decide),
      if_neg (by decide)]
    exact replAll_single_occurrence (str ".odt") (str "_anonymized.txt") stem (by decide) hocc

theorem claim_C5_amended_witness :
    outName (str "report" ++ str ".docx") = str "report" ++ str "_anonymized.docx"
    ∧ outName (str "report" ++ str ".txt") = str "report" ++ str "_anonymized.txt"
    ∧ outName (str "report" ++ str ".pdf") = str "report" ++ str "_anonymized.pdf"
    ∧ outName (str "report" ++ str ".csv") = str "report" ++ str "_anonymized.csv"
    ∧ outName (str "report" ++ str ".xml") = str "report" ++ str "_anonymized.xml"
    ∧ outName (str "scan" ++ str ".odt") = str "scan" ++ str "_anonymized.txt" :=
  ⟨(claim_C5_amended (str "report") (by decide)).1 (by decide),
   (claim_C5_amended (str "report") (by decide)).2.1 (by decide),
   (claim_C5_amended (str "report") (by decide)).2.2.1 (by decide),
   (claim_C5_amended (str "report") (by decide)).2.2.2.1 (by decide),
   (claim_C5_amended (str "report") (by decide)).2.2.2.2.1 (by decide),
   (claim_C5_amended (str "scan") (by decide)).2.2.2.2.2 (by decide)⟩

/-- C6 counterexample: a one-page pdf whose text layer is empty (no
exception) but which carries a table.  The claim's per-page fallback
would recover `"a\n"` from the table; the code never consults the
tables when no exception is raised and extracts nothing. -/
theorem claim_C6_cex :
    pdfExtract (.ok [⟨.ok [], .ok [[[str "a"]]]⟩]) = []
    ∧ pdfExtractPerPage (.ok [⟨.ok [], .ok [[[str "a"]]]⟩]) = str "a\n"
    ∧ pdfExtract (.ok [⟨.ok [], .ok [[[str "a"]]]⟩]) ≠
        pdfExtractPerPage (.ok [⟨.ok [], .ok [[[str "a"]]]⟩]) := by decide

/-- C6 (amended): pdf extraction walks the pages in order appending each
non-empty text layer; when no page's text extraction raises, the result
is exactly the concatenated text layers and the tables are never
consulted; the table fallback is file-level: when the text pass raises
at any position — after a prefix of pages whose text extraction
succeeded — the extractor keeps the text accumulated from that prefix
and appends the tables re-read from ALL pages of the file (up to the
fallback's own first exception), and extraction itself never fails. -/
theorem claim_C6_amended :
    (∀ pages : List PdfPage, (∀ p ∈ pages, p.text.isOk = true) →
      pdfExtract (.ok pages) = textLayersOnly pages)
    ∧ (∀ (ps : List PdfPage) (p : PdfPage) (qs : List PdfPage) (e : Str),
      (∀ q ∈ ps, q.text.isOk = true) → p.text = .error e →
      pdfExtract (.ok (ps ++ p :: qs)) =
        textLayersOnly ps ++ tablesUpToErr (ps ++ p :: qs)) := by
  constructor
  · intro pages h
    simp only [pdfExtract, pdfFirstPass_all_ok pages h []]
    simp
  · intro ps p qs e h hp
    simp only [pdfExtract, pdfFirstPass_prefix_err ps h p e hp qs []]
    simpa using pdfSecondPass_eq (ps ++ p :: qs) ([] ++ textLayersOnly ps)

theorem claim_C6_amended_witness :
    pdfExtract (.ok [⟨.ok (str "x"), .ok []⟩]) =
      textLayersOnly [⟨.ok (str "x"), .ok []⟩]
    ∧ pdfExtract (.ok ([⟨.ok (str "x"), .ok []⟩] ++
        ⟨.error (str "E"), .ok [[[str "a"]]]⟩ :: [⟨.ok (str "y"), .ok [[[str "b"]]]⟩])) =
      textLayersOnly [⟨.ok (str "x"), .ok []⟩] ++
        tablesUpToErr ([⟨.ok (str "x"), .ok []⟩] ++
          ⟨.error (str "E"), .ok [[[str "a"]]]⟩ :: [⟨.ok (str "y"), .ok [[[str "b"]]]⟩]) :=
  ⟨claim_C6_amended.1 [⟨.ok (str "x"), .ok []⟩]
      (by intro p hp; rw [List.mem_singleton] at hp; subst hp; rfl),
   claim_C6_amended.2 [⟨.ok (str "x"), .ok []⟩] ⟨.error (str "E"), .ok [[[str "a"]]]⟩
      [⟨.ok (str "y"), .ok [[[str "b"]]]⟩] (str "E")
      (by intro q hq; rw [List.mem_singleton] at hq; subst hq; rfl) rfl⟩

/-- C7 counterexample: a file named exactly `.txt` — whose `splitext`
extension is empty, hence not one of the six supported formats — is
nevertheless selected at discovery (discovery tests the name suffix,
not the extension) and produces an `ERROR` MappingRecord, contradicting
the claim that such a file is excluded and produces no record at all. -/
theorem claim_C7_cex :
    discoverFiles [(str "in", [str ".txt"])] = [str "in/.txt"]
    ∧ extOf (str ".txt") = []
    ∧ (runBatch env0 cfg0 (str "out") ug0 (discoverFiles [(str "in", [str ".txt"])])).recs =
        [⟨str ".txt", str "ERROR", str "Error: Unsupported file type: "⟩]
    ∧ (runBatch env0 cfg0 (str "out") ug0 (discoverFiles [(str "in", [str ".txt"])])).recs ≠
        [] := by decide

/-- C7 (amended): discovery selects exactly the files whose *name* ends
with one of the six suffixes (and does not start with `~$`); a file
whose name fails that test is excluded and produces no record.  But a
discovered file named exactly like a bare extension (e.g. `.txt`) has
an empty `splitext` extension, fails the format dispatch, and produces
an `ERROR` record — independently of every collaborator, so it never
reaches the Policy Engine or the filesystem. -/
theorem claim_C7_amended :
    (∀ walk : List (Str × List Str),
      discoverFiles walk =
        (walk.map (fun rf => (rf.2.filter isSupportedFile).map (pathJoin rf.1))).flatten)
    ∧ (∀ (env : Env) (cfg : AnonymizationConfig) (outDir uid : Str),
      processOne env cfg outDir uid (str "in/.txt") =
        ⟨⟨str ".txt", str "ERROR", str "Error: Unsupported file type: "⟩, [], []⟩) := by
  constructor
  · intro walk
    induction walk with
    | nil => rfl
    | cons rf rest ih =>
      rcases rf with ⟨root, fs⟩
      simp only [discoverFiles, List.map_cons, List.flatten_cons, ih, discoverDir_eq]
  · intro env cfg outDir uid
    rfl

/-- C8 counterexample: a two-file batch constructs the operators dict
twice — once per file inside the per-file anonymization call — so the
TransformationPlan is not built once per run. -/
theorem claim_C8_cex :
    (runBatch env0 cfgMask (str "out") ug0 [str "in/a.txt", str "in/b.txt"]).plans =
      [[(str "PERSON", .mask '*' 100 false)], [(str "PERSON", .mask '*' 100 false)]]
    ∧ (runBatch env0 cfgMask (str "out") ug0 [str "in/a.txt", str "in/b.txt"]).plans.length ≠
        1 := by decide

/-- C8 (amended): the operators dict is rebuilt per file, but every
rebuild in a run yields the same plan, a pure function of the
configured method and enabled entities: no per-category operator for
`replace`, a redact operator per enabled category for `redact`, a hash
operator for `hash`, and for `mask` the fixed `*` mask of the first 100
characters from the span start. -/
theorem claim_C8_amended (env : Env) (cfg : AnonymizationConfig) (outDir : Str)
    (ug : Nat → Str) (files : List Str) (x : Str) (hx : x ∈ cfg.entities) :
    (∀ pl ∈ (runBatch env cfg outDir ug files).plans,
      pl = buildOperators cfg.method cfg.entities)
    ∧ buildOperators .replace cfg.entities = []
    ∧ (buildOperators .redact cfg.entities).lookup x = some .redact
    ∧ (buildOperators .hash cfg.entities).lookup x = some .hash
    ∧ (buildOperators .mask cfg.entities).lookup x = some (.mask '*' 100 false) := by
  refine ⟨runBatchAux_plans env cfg outDir ug files 0, rfl, ?_, ?_, ?_⟩
  · simpa [buildOperators] using lookup_map_const cfg.entities .redact x hx
  · simpa [buildOperators] using lookup_map_const cfg.entities .hash x hx
  · simpa [buildOperators] using lookup_map_const cfg.entities (.mask '*' 100 false) x hx

theorem claim_C8_amended_witness :
    (buildOperators .mask cfgMask.entities).lookup (str "PERSON") =
      some (.mask '*' 100 false) :=
  (claim_C8_amended env0 cfgMask (str "out") ug0 [] (str "PERSON") (by decide)).2.2.2.2

/-- C9 counterexample: the two distinct discovered inputs `in/a/x.txt`
and `in/b/x.txt` (same base name, different subdirectories) are both
written to the single output path `out/x_anonymized.txt`, so the later
file's output overwrites the earlier one's, contrary to the claim. -/
theorem claim_C9_cex :
    discoverFiles [(str "in/a", [str "x.txt"]), (str "in/b", [str "x.txt"])] =
      [str "in/a/x.txt", str "in/b/x.txt"]
    ∧ str "in/a/x.txt" ≠ str "in/b/x.txt"
    ∧ (runBatch env0 cfg0 (str "out") ug0
        [str "in/a/x.txt", str "in/b/x.txt"]).writes.map Prod.fst =
      [str "out/x_anonymized.txt", str "out/x_anonymized.txt"] := by decide

/-- C9 (amended): the output path of any performed write is a function
of the output directory and the input's base name alone — even across
different runs, configurations and collaborators — so inputs sharing a
base name share one output path (the later write overwriting the
earlier), while the path never depends on the input's directory. -/
theorem claim_C9_amended (env env' : Env) (cfg cfg' : AnonymizationConfig)
    (outDir uid uid' p q : Str) (w w' : Str × OutDoc)
    (hbase : basename p = basename q)
    (hw : w ∈ (processOne env cfg outDir uid p).writes)
    (hw' : w' ∈ (processOne env' cfg' outDir uid' q).writes) :
    w.1 = w'.1 := by
  rw [processOne_writes_path env cfg outDir uid p w hw,
    processOne_writes_path env' cfg' outDir uid' q w' hw', hbase]

theorem claim_C9_amended_witness :
    str "out/x_anonymized.txt" = str "out/x_anonymized.txt" :=
  claim_C9_amended env0 env0 cfg0 cfg0 (str "out") (str "u") (str "v")
    (str "in/a/x.txt") (str "in/b/x.txt")
    (str "out/x_anonymized.txt", OutDoc.plain (str "hello"))
    (str "out/x_anonymized.txt", OutDoc.plain (str "hello"))
    (by decide) (by decide) (by decide)

/-- C10: discovery matches extensions case-sensitively, so `report.TXT`
and `scan.PDF` are silently skipped — not discovered, no record, no
output write — even though the dispatch's own lowercasing would map
their extensions to the supported `.txt` / `.pdf`, while the lowercase
`report.txt` is discovered. -/
theorem claim_C10 :
    isSupportedFile (str "report.TXT") = false
    ∧ isSupportedFile (str "scan.PDF") = false
    ∧ isSupportedFile (str "report.txt") = true
    ∧ extLower (str "report.TXT") = str ".txt"
    ∧ extLower (str "scan.PDF") = str ".pdf"
    ∧ discoverFiles [(str "in", [str "report.TXT", str "scan.PDF"])] = []
    ∧ (runBatch env0 cfg0 (str "out") ug0
        (discoverFiles [(str "in", [str "report.TXT", str "scan.PDF"])])).recs = []
    ∧ (runBatch env0 cfg0 (str "out") ug0
        (discoverFiles [(str "in", [str "report.TXT", str "scan.PDF"])])).writes = [] := by
  decide

end MedAnon
